import Mathlib

/-!
Shallow embedding of the Schedule/Reservation Manager of
`src/apps/medical-appointments/app_old.py` (Flask handlers
`create_schedule_api`, `get_schedules_api`, `api_schedule_detail`,
`update_schedule_api`, `delete_schedule_api`, `reserve_appointment`,
`cancel_appointment`, the validators `validate_hour` and the date
validation inline in `create_schedule_api`, and the backup mirror
`Schedule.sync_to_firestore`).

The SQL store is modelled as a list of rows plus the autoincrement
counter; timestamps are an abstract `Nat` clock passed into each
operation; request bodies/query strings are modelled by their already
JSON-decoded fields.  The Firestore mirror is a keyed document list;
whether a mirror write succeeds is an explicit boolean input.
-/

namespace MedApp

/-- A time-of-day as produced by `datetime.strptime(hour_str, "%H:%M").time()`. -/
structure HM where
  h : Nat
  m : Nat
deriving DecidableEq, Repr

/-- A calendar date as produced by `datetime.strptime(date_str, "%Y-%m-%d").date()`. -/
structure Ymd where
  y : Nat
  m : Nat
  d : Nat
deriving DecidableEq, Repr

/-- One row of the `schedules` table (class `Schedule` in the source). -/
structure Schedule where
  id : Nat
  date : Ymd
  hour : HM
  shared : Bool
  reserved : Bool
  reserved_by : Option String
  reserved_note : Option String
  created_at : Nat
  updated_at : Nat
deriving DecidableEq, Repr

/-- The authoritative SQL store: the rows plus the autoincrement counter
(SQL integer primary keys start at 1). -/
structure Store where
  slots : List Schedule
  nextId : Nat
deriving DecidableEq, Repr

/-- Split a character list at every occurrence of `sep`
(the behaviour of `str.split(sep)` on the string's characters). -/
def splitOnChar (sep : Char) : List Char → List (List Char)
  | [] => [[]]
  | c :: cs =>
    let r := splitOnChar sep cs
    if c = sep then [] :: r
    else
      match r with
      | [] => [[c]]
      | y :: ys => (c :: y) :: ys

/-- The value of a decimal digit character. -/
def charDigit (c : Char) : Option Nat :=
  if '0' ≤ c ∧ c ≤ '9' then some (c.toNat - '0'.toNat) else none

def digitsToNatAux : List Char → Nat → Option Nat
  | [], acc => some acc
  | c :: cs, acc =>
    match charDigit c with
    | none => none
    | some d => digitsToNatAux cs (acc * 10 + d)

/-- The numeric value of a non-empty all-digit character list. -/
def digitsToNat (l : List Char) : Option Nat :=
  match l with
  | [] => none
  | _ => digitsToNatAux l 0

/-- A numeric field of at most two digits as matched by CPython's
strptime regexes for `%H` / `%M` / `%m` / `%d` (one or two digits,
value between `lo` and `hi`). -/
def parseNumField (l : List Char) (lo hi : Nat) : Option Nat :=
  if l.length = 0 ∨ l.length > 2 then none
  else match digitsToNat l with
    | none => none
    | some n => if lo ≤ n ∧ n ≤ hi then some n else none

/-- The `%Y` field: exactly four digits, and `datetime.date` requires year ≥ 1. -/
def parseYearField (l : List Char) : Option Nat :=
  if l.length = 4 then
    match digitsToNat l with
    | none => none
    | some y => if 1 ≤ y then some y else none
  else none

/-- Embedding of `datetime.strptime(s, "%H:%M").time()`: hour 0–23, minute 0–59,
separated by a single colon, nothing else in the string. -/
def parseHourString (s : String) : Option HM :=
  match splitOnChar ':' s.data with
  | [hs, ms] =>
    match parseNumField hs 0 23, parseNumField ms 0 59 with
    | some h, some m => some ⟨h, m⟩
    | _, _ => none
  | _ => none

def isLeapYear (y : Nat) : Bool := (y % 4 = 0 && y % 100 ≠ 0) || y % 400 = 0

def daysInMonth (y m : Nat) : Nat :=
  if m = 2 then (if isLeapYear y then 29 else 28)
  else if m = 4 ∨ m = 6 ∨ m = 9 ∨ m = 11 then 30
  else 31

/-- Embedding of `datetime.strptime(s, "%Y-%m-%d").date()`: four-digit year ≥ 1,
month 1–12, day 1–31 and valid for the month, nothing else in the string. -/
def parseDateString (s : String) : Option Ymd :=
  match splitOnChar '-' s.data with
  | [ys, ms, ds] =>
    match parseYearField ys, parseNumField ms 1 12, parseNumField ds 1 31 with
    | some y, some m, some d => if d ≤ daysInMonth y m then some ⟨y, m, d⟩ else none
    | _, _, _ => none
  | _ => none

/-- Comparison of `datetime.time` values: lexicographic on (hour, minute). -/
def hmLe (a b : HM) : Bool := decide (a.h < b.h ∨ (a.h = b.h ∧ a.m ≤ b.m))

/-- The check `time(9, 0) <= hour_obj <= time(19, 0)` from `validate_hour`. -/
def hmInRange (t : HM) : Bool := hmLe ⟨9, 0⟩ t && hmLe t ⟨19, 0⟩

/-- Error outcomes of `validate_hour`. -/
inductive HourErr where
  | invalid_hour_format
  | hour_out_of_range
deriving DecidableEq, Repr

/-- Embedding of `validate_hour`: parse `%H:%M` (parse failure →
`invalid_hour_format`), then range-check against 09:00–19:00. -/
def validate_hour (s : String) : Except HourErr HM :=
  match parseHourString s with
  | none => .error .invalid_hour_format
  | some t => if hmInRange t then .ok t else .error .hour_out_of_range

/-- The error taxonomy of the API handlers, with their HTTP codes in `httpCode`. -/
inductive ApiError where
  | InvalidData
  | InvalidDate
  | InvalidHour
  | HourOutOfRange
  | AlreadyExists
  | NotFound
  | Conflict
  | NotReserved
deriving DecidableEq, Repr

def httpCode : ApiError → Nat
  | .InvalidData => 400
  | .InvalidDate => 400
  | .InvalidHour => 400
  | .HourOutOfRange => 400
  | .AlreadyExists => 409
  | .NotFound => 404
  | .Conflict => 409
  | .NotReserved => 400

/-- Primary-key lookup `Schedule.query.get(id)`. -/
def findSlot (st : Store) (id : Nat) : Option Schedule :=
  st.slots.find? (fun s => s.id == id)

/-- Embedding of `create_schedule_api`: validate date, validate hour, reject an
existing `(date, hour)` with 409, else insert a fresh row with
`reserved=false` under the next autoincrement id. -/
def create_schedule_api (st : Store) (now : Nat) (date_str hour_str : String)
    (shared : Bool) : Except ApiError Schedule × Store :=
  match parseDateString date_str with
  | none => (.error .InvalidDate, st)
  | some d =>
    match validate_hour hour_str with
    | .error .invalid_hour_format => (.error .InvalidHour, st)
    | .error .hour_out_of_range => (.error .HourOutOfRange, st)
    | .ok t =>
      if ∃ s ∈ st.slots, s.date = d ∧ s.hour = t then
        (.error .AlreadyExists, st)
      else
        let sched : Schedule :=
          { id := st.nextId, date := d, hour := t, shared := shared,
            reserved := false, reserved_by := none, reserved_note := none,
            created_at := now, updated_at := now }
        (.ok sched, { slots := st.slots ++ [sched], nextId := st.nextId + 1 })

/-- ASCII lower-casing of one character (`str.lower()` on the letters
that can occur in the compared literal `'true'`). -/
def lowerChar (c : Char) : Char :=
  if 'A' ≤ c ∧ c ≤ 'Z' then Char.ofNat (c.toNat + 32) else c

/-- The test `request.args.get(key, '').lower() == 'true'` for the `shared` and
`available` query flags of `get_schedules_api`. -/
def parseFlag : Option String → Bool
  | none => false
  | some v => v.data.map lowerChar == "true".data

/-- The conjunction of the `filter_by` clauses accumulated by
`get_schedules_api` (AND semantics of chained filters). -/
def listFilter (dOpt : Option Ymd) (sharedOnly availableOnly : Bool)
    (s : Schedule) : Bool :=
  (match dOpt with
   | none => true
   | some d => decide (s.date = d))
  && (!sharedOnly || s.shared)
  && (!availableOnly || !s.reserved)

/-- The order `ORDER BY date, hour`: lexicographic on (year, month, day, hour, minute). -/
def slotLe (a b : Schedule) : Prop :=
  a.date.y < b.date.y ∨ (a.date.y = b.date.y ∧
    (a.date.m < b.date.m ∨ (a.date.m = b.date.m ∧
      (a.date.d < b.date.d ∨ (a.date.d = b.date.d ∧
        (a.hour.h < b.hour.h ∨ (a.hour.h = b.hour.h ∧ a.hour.m ≤ b.hour.m)))))))

instance : DecidableRel slotLe := fun a b => by unfold slotLe; infer_instance

instance : IsTotal Schedule slotLe := ⟨by intro a b; unfold slotLe; omega⟩

instance : IsTrans Schedule slotLe :=
  ⟨by intro a b c hab hbc; unfold slotLe at hab hbc ⊢; omega⟩

/-- Embedding of `get_schedules_api`: optional exact-date filter (invalid date → 400),
the two boolean flags, then `ORDER BY date, hour` and a `count` equal to
the length of the returned list. -/
def get_schedules_api (st : Store) (dateQ sharedQ availQ : Option String) :
    Except ApiError (List Schedule × Nat) :=
  let sharedOnly := parseFlag sharedQ
  let availableOnly := parseFlag availQ
  match dateQ with
  | some ds =>
    match parseDateString ds with
    | none => .error .InvalidDate
    | some d =>
      let schedules :=
        List.insertionSort slotLe
          (st.slots.filter (listFilter (some d) sharedOnly availableOnly))
      .ok (schedules, schedules.length)
  | none =>
    let schedules :=
      List.insertionSort slotLe
        (st.slots.filter (listFilter none sharedOnly availableOnly))
    .ok (schedules, schedules.length)

/-- Embedding of `GET /api/schedules/<id>` of `api_schedule_detail`: `get_or_404` then
return the row. -/
def api_schedule_detail_get (st : Store) (id : Nat) : Except ApiError Schedule :=
  match findSlot st id with
  | none => .error .NotFound
  | some s => .ok s

/-- The row update performed by `update_schedule_api` on the fetched row:
set `shared` when the body provides it, refresh `updated_at`. -/
def applyUpdate (now : Nat) (id : Nat) (sharedOpt : Option Bool)
    (t : Schedule) : Schedule :=
  if t.id = id then { t with shared := sharedOpt.getD t.shared, updated_at := now }
  else t

/-- Embedding of `PUT /api/schedules/<id>`: `get_or_404`, then `update_schedule_api`. -/
def update_schedule_api (st : Store) (now : Nat) (id : Nat)
    (sharedOpt : Option Bool) : Except ApiError Schedule × Store :=
  match findSlot st id with
  | none => (.error .NotFound, st)
  | some s =>
    (.ok (applyUpdate now id sharedOpt s),
     { st with slots := st.slots.map (applyUpdate now id sharedOpt) })

/-- Embedding of `DELETE /api/schedules/<id>`: `get_or_404`, then delete the row. -/
def delete_schedule_api (st : Store) (id : Nat) : Except ApiError Unit × Store :=
  match findSlot st id with
  | none => (.error .NotFound, st)
  | some _ => (.ok (), { st with slots := st.slots.filter (fun t => !(t.id == id)) })

/-- The row mutation of a successful `reserve_appointment`. -/
def applyReserve (now : Nat) (id : Nat) (rb note : String) (t : Schedule) : Schedule :=
  if t.id = id then
    { t with reserved := true, reserved_by := some rb,
             reserved_note := some note, updated_at := now }
  else t

/-- Embedding of `reserve_appointment`: `if not schedule_id or not reserved_by` → 400
(`InvalidData`); `get_or_404`; `if schedule.reserved` → 409 (`Conflict`);
else set `reserved=True`, `reserved_by`, `reserved_note`, refresh
`updated_at` and commit.  A JSON integer id is falsy exactly when it is 0,
a string exactly when it is empty. -/
def reserve_appointment (st : Store) (now : Nat) (schedule_id : Nat)
    (reserved_by reserved_note : String) : Except ApiError Schedule × Store :=
  if schedule_id = 0 ∨ reserved_by = "" then (.error .InvalidData, st)
  else
    match findSlot st schedule_id with
    | none => (.error .NotFound, st)
    | some s =>
      if s.reserved then (.error .Conflict, st)
      else
        (.ok { s with reserved := true, reserved_by := some reserved_by,
                      reserved_note := some reserved_note, updated_at := now },
         { st with slots := st.slots.map (applyReserve now schedule_id reserved_by reserved_note) })

/-- The row mutation of a successful `cancel_appointment`. -/
def applyCancel (now : Nat) (id : Nat) (t : Schedule) : Schedule :=
  if t.id = id then
    { t with reserved := false, reserved_by := none,
             reserved_note := none, updated_at := now }
  else t

/-- Embedding of `cancel_appointment`: `get_or_404`; `if not schedule.reserved` → 400
(`NotReserved`); else clear `reserved`, `reserved_by`, `reserved_note`,
refresh `updated_at` and commit. -/
def cancel_appointment (st : Store) (now : Nat) (schedule_id : Nat) :
    Except ApiError Schedule × Store :=
  match findSlot st schedule_id with
  | none => (.error .NotFound, st)
  | some s =>
    if s.reserved = false then (.error .NotReserved, st)
    else
      (.ok { s with reserved := false, reserved_by := none,
                    reserved_note := none, updated_at := now },
       { st with slots := st.slots.map (applyCancel now schedule_id) })

/-- Stores reachable from the empty database through the API operations. -/
inductive Reachable : Store → Prop where
  | empty : Reachable { slots := [], nextId := 1 }
  | create (st : Store) (now : Nat) (ds hs : String) (sh : Bool) :
      Reachable st → Reachable (create_schedule_api st now ds hs sh).2
  | update (st : Store) (now : Nat) (id : Nat) (shOpt : Option Bool) :
      Reachable st → Reachable (update_schedule_api st now id shOpt).2
  | reserve (st : Store) (now : Nat) (id : Nat) (rb note : String) :
      Reachable st → Reachable (reserve_appointment st now id rb note).2
  | cancel (st : Store) (now : Nat) (id : Nat) :
      Reachable st → Reachable (cancel_appointment st now id).2
  | del (st : Store) (id : Nat) :
      Reachable st → Reachable (delete_schedule_api st id).2

/-- The Firestore mirror: documents keyed by `str(id)`. -/
def upsertDoc (docs : List (Nat × Schedule)) (s : Schedule) : List (Nat × Schedule) :=
  if docs.any (fun p => p.1 == s.id) then
    docs.map (fun p => if p.1 == s.id then (s.id, s) else p)
  else docs ++ [(s.id, s)]

/-- Embedding of `Schedule.sync_to_firestore`: attempt the document write; on failure
(`backupOk = false`) only append an error log line — the exception is
caught inside the method and never propagated. -/
def sync_to_firestore (backupOk : Bool) (s : Schedule)
    (docs : List (Nat × Schedule)) (log : List String) :
    List (Nat × Schedule) × List String :=
  if backupOk then (upsertDoc docs s, log ++ ["Synced appointment to Firestore"])
  else (docs, log ++ ["Failed to sync to Firestore"])

/-- Primary store plus the Firestore mirror and the service log. -/
structure FullState where
  store : Store
  docs : List (Nat × Schedule)
  log : List String
deriving DecidableEq, Repr

/-- Composition: `create_schedule_api` followed by the best-effort mirror write. -/
def create_schedule_full (fs : FullState) (backupOk : Bool) (now : Nat)
    (ds hs : String) (sh : Bool) : Except ApiError Schedule × FullState :=
  match create_schedule_api fs.store now ds hs sh with
  | (.ok s, st) =>
    let bl := sync_to_firestore backupOk s fs.docs fs.log
    (.ok s, { store := st, docs := bl.1, log := bl.2 })
  | (.error e, st) => (.error e, { fs with store := st })

/-- Composition: `update_schedule_api` followed by the best-effort mirror write. -/
def update_schedule_full (fs : FullState) (backupOk : Bool) (now : Nat)
    (id : Nat) (shOpt : Option Bool) : Except ApiError Schedule × FullState :=
  match update_schedule_api fs.store now id shOpt with
  | (.ok s, st) =>
    let bl := sync_to_firestore backupOk s fs.docs fs.log
    (.ok s, { store := st, docs := bl.1, log := bl.2 })
  | (.error e, st) => (.error e, { fs with store := st })

/-- Composition: `reserve_appointment` followed by the best-effort mirror write. -/
def reserve_appointment_full (fs : FullState) (backupOk : Bool) (now : Nat)
    (id : Nat) (rb note : String) : Except ApiError Schedule × FullState :=
  match reserve_appointment fs.store now id rb note with
  | (.ok s, st) =>
    let bl := sync_to_firestore backupOk s fs.docs fs.log
    (.ok s, { store := st, docs := bl.1, log := bl.2 })
  | (.error e, st) => (.error e, { fs with store := st })

/-- Composition: `cancel_appointment` followed by the best-effort mirror write. -/
def cancel_appointment_full (fs : FullState) (backupOk : Bool) (now : Nat)
    (id : Nat) : Except ApiError Schedule × FullState :=
  match cancel_appointment fs.store now id with
  | (.ok s, st) =>
    let bl := sync_to_firestore backupOk s fs.docs fs.log
    (.ok s, { store := st, docs := bl.1, log := bl.2 })
  | (.error e, st) => (.error e, { fs with store := st })

/-! ### Basic lemmas about the validators and row mutations -/

theorem validate_hour_ok (s : String) (t : HM) (h : validate_hour s = .ok t) :
    parseHourString s = some t ∧ hmInRange t = true := by
  cases hp : parseHourString s with
  | none => simp [validate_hour, hp] at h
  | some u =>
    simp only [validate_hour, hp] at h
    by_cases hr : hmInRange u = true
    · rw [if_pos hr] at h
      obtain rfl : u = t := by injection h
      exact ⟨rfl, hr⟩
    · rw [if_neg hr] at h
      exact absurd h (by simp)

theorem applyReserve_id (now id : Nat) (rb note : String) (t : Schedule) :
    (applyReserve now id rb note t).id = t.id := by
  unfold applyReserve; split <;> rfl

theorem applyReserve_date (now id : Nat) (rb note : String) (t : Schedule) :
    (applyReserve now id rb note t).date = t.date := by
  unfold applyReserve; split <;> rfl

theorem applyReserve_hour (now id : Nat) (rb note : String) (t : Schedule) :
    (applyReserve now id rb note t).hour = t.hour := by
  unfold applyReserve; split <;> rfl

theorem applyCancel_id (now id : Nat) (t : Schedule) :
    (applyCancel now id t).id = t.id := by
  unfold applyCancel; split <;> rfl

theorem applyCancel_date (now id : Nat) (t : Schedule) :
    (applyCancel now id t).date = t.date := by
  unfold applyCancel; split <;> rfl

theorem applyCancel_hour (now id : Nat) (t : Schedule) :
    (applyCancel now id t).hour = t.hour := by
  unfold applyCancel; split <;> rfl

theorem applyUpdate_id (now id : Nat) (shOpt : Option Bool) (t : Schedule) :
    (applyUpdate now id shOpt t).id = t.id := by
  unfold applyUpdate; split <;> rfl

theorem applyUpdate_date (now id : Nat) (shOpt : Option Bool) (t : Schedule) :
    (applyUpdate now id shOpt t).date = t.date := by
  unfold applyUpdate; split <;> rfl

theorem applyUpdate_hour (now id : Nat) (shOpt : Option Bool) (t : Schedule) :
    (applyUpdate now id shOpt t).hour = t.hour := by
  unfold applyUpdate; split <;> rfl

/-! ### Shape of the store after each operation -/

def freshRow (st : Store) (now : Nat) (d : Ymd) (t : HM) (sh : Bool) : Schedule :=
  { id := st.nextId, date := d, hour := t, shared := sh,
    reserved := false, reserved_by := none, reserved_note := none,
    created_at := now, updated_at := now }

theorem create_store_cases (st : Store) (now : Nat) (ds hs : String) (sh : Bool) :
    (create_schedule_api st now ds hs sh).2 = st ∨
    ∃ d t, parseDateString ds = some d ∧ validate_hour hs = .ok t ∧
      (¬ ∃ s ∈ st.slots, s.date = d ∧ s.hour = t) ∧
      (create_schedule_api st now ds hs sh).2 =
        { slots := st.slots ++ [freshRow st now d t sh], nextId := st.nextId + 1 } := by
  cases hd : parseDateString ds with
  | none => simp [create_schedule_api, hd]
  | some d =>
    cases hv : validate_hour hs with
    | error e => cases e <;> simp [create_schedule_api, hd, hv]
    | ok t =>
      simp only [create_schedule_api, hd, hv]
      by_cases hex : ∃ s ∈ st.slots, s.date = d ∧ s.hour = t
      · rw [if_pos hex]; exact Or.inl rfl
      · rw [if_neg hex]
        exact Or.inr ⟨d, t, rfl, rfl, hex, rfl⟩

theorem reserve_store_cases (st : Store) (now : Nat) (id : Nat) (rb note : String) :
    (reserve_appointment st now id rb note).2 = st ∨
    (id ≠ 0 ∧ rb ≠ "" ∧ (reserve_appointment st now id rb note).2 =
      { st with slots := st.slots.map (applyReserve now id rb note) }) := by
  by_cases hg : id = 0 ∨ rb = ""
  · simp [reserve_appointment, hg]
  · have hg' := hg
    push_neg at hg'
    cases hf : findSlot st id with
    | none => simp [reserve_appointment, hg, hf]
    | some s =>
      simp only [reserve_appointment, if_neg hg, hf]
      by_cases hr : s.reserved
      · rw [if_pos hr]; exact Or.inl rfl
      · rw [if_neg hr]; exact Or.inr ⟨hg'.1, hg'.2, rfl⟩

theorem cancel_store_cases (st : Store) (now : Nat) (id : Nat) :
    (cancel_appointment st now id).2 = st ∨
    (cancel_appointment st now id).2 = { st with slots := st.slots.map (applyCancel now id) } := by
  cases hf : findSlot st id with
  | none => simp [cancel_appointment, hf]
  | some s =>
    simp only [cancel_appointment, hf]
    by_cases hr : s.reserved = false
    · rw [if_pos hr]; exact Or.inl rfl
    · rw [if_neg hr]; exact Or.inr rfl

theorem update_store_cases (st : Store) (now : Nat) (id : Nat) (shOpt : Option Bool) :
    (update_schedule_api st now id shOpt).2 = st ∨
    (update_schedule_api st now id shOpt).2 =
      { st with slots := st.slots.map (applyUpdate now id shOpt) } := by
  cases hf : findSlot st id with
  | none => simp [update_schedule_api, hf]
  | some s => simp [update_schedule_api, hf]

theorem delete_store_cases (st : Store) (id : Nat) :
    (delete_schedule_api st id).2 = st ∨
    (delete_schedule_api st id).2 =
      { st with slots := st.slots.filter (fun t => !(t.id == id)) } := by
  cases hf : findSlot st id with
  | none => simp [delete_schedule_api, hf]
  | some s => simp [delete_schedule_api, hf]

/-! ### Invariants of the store and their preservation -/

/-- All stored hours lie within the 09:00–19:00 window. -/
def hourAll (st : Store) : Prop := ∀ s ∈ st.slots, hmInRange s.hour = true

/-- No two stored rows share a `(date, hour)` pair. -/
def uniqueDH (st : Store) : Prop :=
  st.slots.Pairwise (fun a b => ¬(a.date = b.date ∧ a.hour = b.hour))

/-- Invariant: `reserved_by` holds a non-empty string exactly when the row is reserved. -/
def reservedByConsistent (s : Schedule) : Prop :=
  (∃ r, s.reserved_by = some r ∧ r ≠ "") ↔ s.reserved = true

def rbAll (st : Store) : Prop := ∀ s ∈ st.slots, reservedByConsistent s

/-- Primary-key discipline: positive, below the counter, pairwise distinct. -/
def StoreWF (st : Store) : Prop :=
  1 ≤ st.nextId ∧ (∀ s ∈ st.slots, 1 ≤ s.id ∧ s.id < st.nextId) ∧
  st.slots.Pairwise (fun a b => a.id ≠ b.id)

instance (st : Store) : Decidable (StoreWF st) := by
  unfold StoreWF; infer_instance

/-- Conjunction of all store invariants. -/
def Inv (st : Store) : Prop := StoreWF st ∧ hourAll st ∧ uniqueDH st ∧ rbAll st

theorem inv_map (st : Store) (f : Schedule → Schedule)
    (hid : ∀ t, (f t).id = t.id) (hdate : ∀ t, (f t).date = t.date)
    (hhour : ∀ t, (f t).hour = t.hour)
    (hrb : ∀ t, reservedByConsistent t → reservedByConsistent (f t))
    (h : Inv st) : Inv { st with slots := st.slots.map f } := by
  obtain ⟨⟨w1, w2, w3⟩, hh, hu, hr⟩ := h
  refine ⟨⟨w1, ?_, ?_⟩, ?_, ?_, ?_⟩
  · intro s hs
    rcases List.mem_map.1 hs with ⟨t, ht, rfl⟩
    rw [hid]; exact w2 t ht
  · exact w3.map f (fun a b hab => by rw [hid, hid]; exact hab)
  · intro s hs
    rcases List.mem_map.1 hs with ⟨t, ht, rfl⟩
    rw [hhour]; exact hh t ht
  · exact hu.map f (fun a b hab => by rw [hdate, hdate, hhour, hhour]; exact hab)
  · intro s hs
    rcases List.mem_map.1 hs with ⟨t, ht, rfl⟩
    exact hrb t (hr t ht)

theorem inv_filter (st : Store) (p : Schedule → Bool) (h : Inv st) :
    Inv { st with slots := st.slots.filter p } := by
  obtain ⟨⟨w1, w2, w3⟩, hh, hu, hr⟩ := h
  refine ⟨⟨w1, ?_, w3.sublist (List.filter_sublist _)⟩,
          ?_, hu.sublist (List.filter_sublist _), ?_⟩
  · intro s hs; exact w2 s (List.mem_of_mem_filter hs)
  · intro s hs; exact hh s (List.mem_of_mem_filter hs)
  · intro s hs; exact hr s (List.mem_of_mem_filter hs)

theorem applyReserve_rb (now id : Nat) (rb note : String) (hrb : rb ≠ "")
    (t : Schedule) (h : reservedByConsistent t) :
    reservedByConsistent (applyReserve now id rb note t) := by
  unfold applyReserve
  split
  · exact ⟨fun _ => rfl, fun _ => ⟨rb, rfl, hrb⟩⟩
  · exact h

theorem applyCancel_rb (now id : Nat) (t : Schedule) (h : reservedByConsistent t) :
    reservedByConsistent (applyCancel now id t) := by
  unfold applyCancel
  split
  · constructor
    · rintro ⟨r, hr2, -⟩; cases hr2
    · intro hc; cases hc
  · exact h

theorem applyUpdate_rb (now id : Nat) (shOpt : Option Bool) (t : Schedule)
    (h : reservedByConsistent t) :
    reservedByConsistent (applyUpdate now id shOpt t) := by
  unfold applyUpdate
  split
  · exact h
  · exact h

/-- Every store reachable through the API operations satisfies all four
invariants. -/
theorem reachable_inv (st : Store) (h : Reachable st) : Inv st := by
  induction h with
  | empty =>
    refine ⟨⟨Nat.le_refl 1, ?_, List.Pairwise.nil⟩, ?_, List.Pairwise.nil, ?_⟩ <;>
      exact fun s hs => absurd hs (List.not_mem_nil s)
  | create st now ds hs sh _ ih =>
    rcases create_store_cases st now ds hs sh with hc | ⟨d, t, hd, hv, hex, hc⟩
    · rw [hc]; exact ih
    · rw [hc]
      obtain ⟨⟨w1, w2, w3⟩, hh, hu, hr⟩ := ih
      have hfr : ∀ s ∈ st.slots, ¬(s.date = d ∧ s.hour = t) := by
        intro s hsm hcon
        exact hex ⟨s, hsm, hcon⟩
      refine ⟨⟨Nat.le_succ_of_le w1, ?_, ?_⟩, ?_, ?_, ?_⟩
      · intro s hsm
        rcases List.mem_append.1 hsm with hsm | hsm
        · have := w2 s hsm
          exact ⟨this.1, Nat.lt_succ_of_lt this.2⟩
        · rw [List.mem_singleton] at hsm
          subst hsm
          exact ⟨w1, Nat.lt_succ_self _⟩
      · refine List.pairwise_append.2 ⟨w3, List.pairwise_singleton _ _, ?_⟩
        intro a ha b hb
        rw [List.mem_singleton] at hb
        subst hb
        exact Nat.ne_of_lt (w2 a ha).2
      · intro s hsm
        rcases List.mem_append.1 hsm with hsm | hsm
        · exact hh s hsm
        · rw [List.mem_singleton] at hsm
          subst hsm
          exact (validate_hour_ok hs t hv).2
      · refine List.pairwise_append.2 ⟨hu, List.pairwise_singleton _ _, ?_⟩
        intro a ha b hb
        rw [List.mem_singleton] at hb
        subst hb
        exact hfr a ha
      · intro s hsm
        rcases List.mem_append.1 hsm with hsm | hsm
        · exact hr s hsm
        · rw [List.mem_singleton] at hsm
          subst hsm
          constructor
          · rintro ⟨r, hrq, -⟩; cases hrq
          · intro hc; cases hc
  | update st now id shOpt _ ih =>
    rcases update_store_cases st now id shOpt with hc | hc
    · rw [hc]; exact ih
    · rw [hc]
      exact inv_map st _ (applyUpdate_id now id shOpt) (applyUpdate_date now id shOpt)
        (applyUpdate_hour now id shOpt) (applyUpdate_rb now id shOpt) ih
  | reserve st now id rb note _ ih =>
    rcases reserve_store_cases st now id rb note with hc | ⟨_, hrb, hc⟩
    · rw [hc]; exact ih
    · rw [hc]
      exact inv_map st _ (applyReserve_id now id rb note) (applyReserve_date now id rb note)
        (applyReserve_hour now id rb note) (applyReserve_rb now id rb note hrb) ih
  | cancel st now id _ ih =>
    rcases cancel_store_cases st now id with hc | hc
    · rw [hc]; exact ih
    · rw [hc]
      exact inv_map st _ (applyCancel_id now id) (applyCancel_date now id)
        (applyCancel_hour now id) (applyCancel_rb now id) ih
  | del st id _ ih =>
    rcases delete_store_cases st id with hc | hc
    · rw [hc]; exact ih
    · rw [hc]; exact inv_filter st _ ih

/-! ### Lookup lemmas -/

theorem findSlot_mem (st : Store) (id : Nat) (s : Schedule)
    (h : findSlot st id = some s) : s ∈ st.slots ∧ s.id = id := by
  refine ⟨List.mem_of_find?_eq_some h, ?_⟩
  have hp := List.find?_some h
  simpa using hp

theorem find?_append_last (p : Schedule → Bool) (l : List Schedule) (a : Schedule)
    (hl : ∀ x ∈ l, p x = false) (ha : p a = true) :
    (l ++ [a]).find? p = some a := by
  induction l with
  | nil => simpa using List.find?_cons_of_pos ([] : List Schedule) ha
  | cons b l ih =>
    have hb : p b = false := hl b (List.mem_cons_self b l)
    rw [List.cons_append, List.find?_cons_of_neg _ (by simp [hb])]
    exact ih (fun x hx => hl x (List.mem_cons_of_mem b hx))

theorem find?_map_id (f : Schedule → Schedule) (hf : ∀ t, (f t).id = t.id)
    (l : List Schedule) (id : Nat) :
    (l.map f).find? (fun s => s.id == id) =
      (l.find? (fun s => s.id == id)).map f := by
  induction l with
  | nil => rfl
  | cons a l ih =>
    simp only [List.map_cons, List.find?]
    rw [hf a]
    cases ha : (a.id == id) with
    | true => rfl
    | false => exact ih

theorem findSlot_map (f : Schedule → Schedule) (hf : ∀ t, (f t).id = t.id)
    (l : List Schedule) (n id : Nat) :
    findSlot { slots := l.map f, nextId := n } id =
      (findSlot { slots := l, nextId := n } id).map f :=
  find?_map_id f hf l id

/-! ### Concrete stores used as witnesses and counterexamples -/

/-- A store holding one already-reserved slot (id 1, 2025-12-20 14:00,
reserved by Alice). -/
def cexSlot : Schedule :=
  { id := 1, date := ⟨2025, 12, 20⟩, hour := ⟨14, 0⟩, shared := false,
    reserved := true, reserved_by := some "Alice", reserved_note := none,
    created_at := 0, updated_at := 0 }

def cexStore : Store := { slots := [cexSlot], nextId := 2 }

/-- A store holding one available slot (id 1, 2025-12-20 14:00). -/
def wSlot : Schedule :=
  { id := 1, date := ⟨2025, 12, 20⟩, hour := ⟨14, 0⟩, shared := true,
    reserved := false, reserved_by := none, reserved_note := none,
    created_at := 0, updated_at := 0 }

def wStore : Store := { slots := [wSlot], nextId := 2 }

/-! ### C4 -/

/-- C4: `create_schedule_api` (through `validate_hour`) rejects every hour
strictly below 09:00 or strictly above 19:00 with `HourOutOfRange`, accepts
the boundary values 09:00 and 19:00, rejects unparseable hour strings with
`InvalidHour`, and in every reachable store every stored hour lies within
[09:00, 19:00]. -/
theorem hour_validation_spec :
    (∀ s, parseHourString s = none → validate_hour s = .error .invalid_hour_format) ∧
    (∀ s t, parseHourString s = some t → hmInRange t = false →
        validate_hour s = .error .hour_out_of_range) ∧
    (∀ s t, parseHourString s = some t → hmInRange t = true → validate_hour s = .ok t) ∧
    (∀ t : HM, hmInRange t = false ↔ (t.h < 9 ∨ 19 < t.h ∨ (t.h = 19 ∧ 0 < t.m))) ∧
    validate_hour "09:00" = .ok ⟨9, 0⟩ ∧
    validate_hour "19:00" = .ok ⟨19, 0⟩ ∧
    (∀ st, Reachable st → hourAll st) := by
  refine ⟨?_, ?_, ?_, ?_, rfl, rfl, ?_⟩
  · intro s h
    simp [validate_hour, h]
  · intro s t hp hr
    simp [validate_hour, hp, hr]
  · intro s t hp hr
    simp [validate_hour, hp, hr]
  · intro t
    simp only [hmInRange, hmLe, Bool.and_eq_false_iff, decide_eq_false_iff_not]
    omega
  · exact fun st h => (reachable_inv st h).2.1

/-- Witness for C4 at concrete inputs: 08:30 is rejected as out of range,
`25:00` is rejected as unparseable, and the empty store satisfies the
stored-hour invariant. -/
theorem hour_validation_spec_witness :
    validate_hour "08:30" = .error .hour_out_of_range ∧
    validate_hour "25:00" = .error .invalid_hour_format ∧
    hourAll { slots := [], nextId := 1 } :=
  ⟨hour_validation_spec.2.1 "08:30" ⟨8, 30⟩ rfl rfl,
   hour_validation_spec.1 "25:00" rfl,
   hour_validation_spec.2.2.2.2.2.2 _ Reachable.empty⟩

/-! ### C3 -/

/-- C3: in every reachable store no two slots share a `(date, hour)` pair,
and `create_schedule_api` with the `(date, hour)` of an existing slot
always returns `AlreadyExists` (HTTP 409) and leaves the store unchanged,
whatever the call order that produced the store. -/
theorem unique_date_hour_spec :
    (∀ st, Reachable st → uniqueDH st) ∧
    (∀ st now ds hs sh d t, parseDateString ds = some d → validate_hour hs = .ok t →
        (∃ s ∈ st.slots, s.date = d ∧ s.hour = t) →
        create_schedule_api st now ds hs sh = (.error .AlreadyExists, st)) ∧
    httpCode .AlreadyExists = 409 := by
  refine ⟨fun st h => (reachable_inv st h).2.2.1, ?_, rfl⟩
  intro st now ds hs sh d t hd hv hex
  simp only [create_schedule_api, hd, hv]
  rw [if_pos hex]

/-- Witness for C3: creating 2025-12-20 14:00 against a store that already
holds that pair returns `AlreadyExists` and the unchanged store; the empty
store is duplicate-free. -/
theorem unique_date_hour_spec_witness :
    create_schedule_api cexStore 3 "2025-12-20" "14:00" false =
      (.error .AlreadyExists, cexStore) ∧
    uniqueDH { slots := [], nextId := 1 } :=
  ⟨unique_date_hour_spec.2.1 cexStore 3 "2025-12-20" "14:00" false ⟨2025, 12, 20⟩ ⟨14, 0⟩
     rfl rfl ⟨cexSlot, by decide, by decide, by decide⟩,
   unique_date_hour_spec.1 _ Reachable.empty⟩

/-! ### C8 -/

theorem rbAll_map (st : Store) (f : Schedule → Schedule)
    (hf : ∀ t, reservedByConsistent t → reservedByConsistent (f t))
    (h : rbAll st) : rbAll { st with slots := st.slots.map f } := by
  intro s hs
  rcases List.mem_map.1 hs with ⟨t, ht, rfl⟩
  exact hf t (h t ht)

theorem freshRow_rb (st : Store) (now : Nat) (d : Ymd) (t : HM) (sh : Bool) :
    reservedByConsistent (freshRow st now d t sh) := by
  constructor
  · rintro ⟨r, hq, -⟩; cases hq
  · intro hc; cases hc

/-- C8: in every reachable store, `reserved_by` holds a non-empty string
exactly when `reserved` is true, and each of the four mutating operations
preserves this invariant. -/
theorem reserved_by_iff_reserved_spec :
    (∀ st, Reachable st → rbAll st) ∧
    (∀ st now ds hs sh, rbAll st → rbAll (create_schedule_api st now ds hs sh).2) ∧
    (∀ st now id shOpt, rbAll st → rbAll (update_schedule_api st now id shOpt).2) ∧
    (∀ st now id rb note, rbAll st → rbAll (reserve_appointment st now id rb note).2) ∧
    (∀ st now id, rbAll st → rbAll (cancel_appointment st now id).2) := by
  refine ⟨fun st h => (reachable_inv st h).2.2.2, ?_, ?_, ?_, ?_⟩
  · intro st now ds hs sh h
    rcases create_store_cases st now ds hs sh with hc | ⟨d, t, _, _, _, hc⟩
    · rw [hc]; exact h
    · rw [hc]
      intro s hsm
      rcases List.mem_append.1 hsm with hsm | hsm
      · exact h s hsm
      · rw [List.mem_singleton] at hsm
        subst hsm
        exact freshRow_rb st now d t sh
  · intro st now id shOpt h
    rcases update_store_cases st now id shOpt with hc | hc
    · rw [hc]; exact h
    · rw [hc]; exact rbAll_map st _ (applyUpdate_rb now id shOpt) h
  · intro st now id rb note h
    rcases reserve_store_cases st now id rb note with hc | ⟨_, hrb, hc⟩
    · rw [hc]; exact h
    · rw [hc]; exact rbAll_map st _ (applyReserve_rb now id rb note hrb) h
  · intro st now id h
    rcases cancel_store_cases st now id with hc | hc
    · rw [hc]; exact h
    · rw [hc]; exact rbAll_map st _ (applyCancel_rb now id) h

/-- Witness for C8: the invariant holds in the empty store and is
preserved by a concrete reserve against the one-available-slot store. -/
theorem reserved_by_iff_reserved_spec_witness :
    rbAll { slots := [], nextId := 1 } ∧
    rbAll (reserve_appointment wStore 5 1 "Alice" "checkup").2 :=
  ⟨reserved_by_iff_reserved_spec.1 _ Reachable.empty,
   reserved_by_iff_reserved_spec.2.2.2.1 wStore 5 1 "Alice" "checkup"
     (by
       intro s hs
       rw [wStore, List.mem_singleton] at hs
       subst hs
       constructor
       · rintro ⟨r, hq, -⟩; cases hq
       · intro hc; cases hc)⟩

/-! ### C2 -/

/-- C2 counterexample: the claim quantifies over every `reservedBy`, but
`reserve_appointment` validates the request body before looking at the
slot, so on the store whose slot 1 is reserved, a reserve with an empty
`reserved_by` returns `InvalidData` (HTTP 400) and not `Conflict`. -/
theorem reserve_conflict_iff_cex :
    findSlot cexStore 1 = some cexSlot ∧ cexSlot.reserved = true ∧
    (reserve_appointment cexStore 7 1 "" "x").1 = .error .InvalidData ∧
    ApiError.InvalidData ≠ ApiError.Conflict :=
  ⟨rfl, rfl, rfl, by decide⟩

/-- C2 (amended): for a slot present in the store, provided the request
carries a non-zero id and a non-empty `reservedBy` (otherwise the body
validation fails with `InvalidData` first), `Reserve` fails with
`Conflict` iff the slot is already reserved and on success sets
`reserved`, `reserved_by`, `reserved_note` and refreshes `updated_at`;
`Cancel` fails with `NotReserved` iff the slot is not reserved and on
success clears all three fields and refreshes `updated_at`.  `reserved`
is a boolean column, so no further slot states exist. -/
theorem reserve_cancel_state_machine (st : Store) (now : Nat) (id : Nat)
    (rb note : String) (s : Schedule) (hfind : findSlot st id = some s)
    (hid : id ≠ 0) (hrb : rb ≠ "") :
    ((reserve_appointment st now id rb note).1 = .error .Conflict ↔ s.reserved = true) ∧
    (s.reserved = false →
        reserve_appointment st now id rb note =
          (.ok { s with reserved := true, reserved_by := some rb,
                        reserved_note := some note, updated_at := now },
           { st with slots := st.slots.map (applyReserve now id rb note) })) ∧
    ((cancel_appointment st now id).1 = .error .NotReserved ↔ s.reserved = false) ∧
    (s.reserved = true →
        cancel_appointment st now id =
          (.ok { s with reserved := false, reserved_by := none,
                        reserved_note := none, updated_at := now },
           { st with slots := st.slots.map (applyCancel now id) })) := by
  have hg : ¬(id = 0 ∨ rb = "") := by
    rintro (h | h)
    · exact hid h
    · exact hrb h
  refine ⟨?_, ?_, ?_, ?_⟩
  · cases hres : s.reserved with
    | true => simp [reserve_appointment, hg, hfind, hres]
    | false => simp [reserve_appointment, hg, hfind, hres]
  · intro hres
    simp [reserve_appointment, hg, hfind, hres]
  · cases hres : s.reserved with
    | true => simp [cancel_appointment, hfind, hres]
    | false => simp [cancel_appointment, hfind, hres]
  · intro hres
    simp [cancel_appointment, hfind, hres]

/-- Witness for C2 (amended) on the one-available-slot store at id 1 with
`reservedBy = "Alice"`. -/
theorem reserve_cancel_state_machine_witness :
    (((reserve_appointment wStore 5 1 "Alice" "n").1 = .error .Conflict) ↔
        wSlot.reserved = true) ∧
    (wSlot.reserved = false →
        reserve_appointment wStore 5 1 "Alice" "n" =
          (.ok { wSlot with reserved := true, reserved_by := some "Alice",
                            reserved_note := some "n", updated_at := 5 },
           { wStore with slots := wStore.slots.map (applyReserve 5 1 "Alice" "n") })) ∧
    (((cancel_appointment wStore 5 1).1 = .error .NotReserved) ↔
        wSlot.reserved = false) ∧
    (wSlot.reserved = true →
        cancel_appointment wStore 5 1 =
          (.ok { wSlot with reserved := false, reserved_by := none,
                            reserved_note := none, updated_at := 5 },
           { wStore with slots := wStore.slots.map (applyCancel 5 1) })) :=
  reserve_cancel_state_machine wStore 5 1 "Alice" "n" wSlot rfl (by decide) (by decide)

/-! ### C5 -/

/-- C5: against a well-formed store, creating a slot with a valid date and
an in-range hour at a free `(date, hour)` succeeds, and reading the
returned id back yields a slot whose `date`, `hour` and `shared` equal
the inputs, with `reserved = false`. -/
theorem create_then_get_spec (st : Store) (now : Nat) (ds hs : String) (sh : Bool)
    (d : Ymd) (t : HM) (hWF : StoreWF st)
    (hd : parseDateString ds = some d) (ht : validate_hour hs = .ok t)
    (hfree : ¬ ∃ s ∈ st.slots, s.date = d ∧ s.hour = t) :
    ∃ sched st2,
      create_schedule_api st now ds hs sh = (.ok sched, st2) ∧
      api_schedule_detail_get st2 sched.id = .ok sched ∧
      sched.date = d ∧ sched.hour = t ∧ sched.shared = sh ∧ sched.reserved = false := by
  refine ⟨freshRow st now d t sh,
          { slots := st.slots ++ [freshRow st now d t sh], nextId := st.nextId + 1 },
          ?_, ?_, rfl, rfl, rfl, rfl⟩
  · simp only [create_schedule_api, hd, ht]
    rw [if_neg hfree]
    rfl
  · have hfind :
        findSlot { slots := st.slots ++ [freshRow st now d t sh], nextId := st.nextId + 1 }
          (freshRow st now d t sh).id = some (freshRow st now d t sh) := by
      unfold findSlot
      refine find?_append_last _ st.slots _ ?_ (by simp [freshRow])
      intro x hx
      have hlt : x.id < st.nextId := (hWF.2.1 x hx).2
      simp only [freshRow]
      exact beq_eq_false_iff_ne.2 (Nat.ne_of_lt hlt)
    unfold api_schedule_detail_get
    rw [hfind]

/-- Witness for C5: create 2025-12-20 14:00 in the empty store and read
it back. -/
theorem create_then_get_spec_witness :
    ∃ sched st2,
      create_schedule_api { slots := [], nextId := 1 } 0 "2025-12-20" "14:00" true =
        (.ok sched, st2) ∧
      api_schedule_detail_get st2 sched.id = .ok sched ∧
      sched.date = ⟨2025, 12, 20⟩ ∧ sched.hour = ⟨14, 0⟩ ∧
      sched.shared = true ∧ sched.reserved = false :=
  create_then_get_spec { slots := [], nextId := 1 } 0 "2025-12-20" "14:00" true
    ⟨2025, 12, 20⟩ ⟨14, 0⟩ (by decide) rfl rfl (by decide)

/-! ### Single-step success lemmas (shared) -/

theorem findSlot_map_store (st : Store) (f : Schedule → Schedule)
    (hf : ∀ t, (f t).id = t.id) (id : Nat) :
    findSlot { st with slots := st.slots.map f } id = (findSlot st id).map f :=
  find?_map_id f hf st.slots id

theorem reserve_ok (st : Store) (now : Nat) (id : Nat) (rb note : String)
    (s : Schedule) (hid : id ≠ 0) (hrb : rb ≠ "")
    (hfind : findSlot st id = some s) (hres : s.reserved = false) :
    reserve_appointment st now id rb note =
      (.ok { s with reserved := true, reserved_by := some rb,
                    reserved_note := some note, updated_at := now },
       { st with slots := st.slots.map (applyReserve now id rb note) }) := by
  have hg : ¬(id = 0 ∨ rb = "") := by
    rintro (h | h)
    · exact hid h
    · exact hrb h
  simp [reserve_appointment, hg, hfind, hres]

theorem cancel_ok (st : Store) (now : Nat) (id : Nat) (s : Schedule)
    (hfind : findSlot st id = some s) (hres : s.reserved = true) :
    cancel_appointment st now id =
      (.ok { s with reserved := false, reserved_by := none,
                    reserved_note := none, updated_at := now },
       { st with slots := st.slots.map (applyCancel now id) }) := by
  simp [cancel_appointment, hfind, hres]

/-! ### C6 -/

/-- C6 counterexample: the claim quantifies over every slot id present in
the store, but on the store whose slot 1 is already reserved the very
first `Reserve` of the sequence fails with `Conflict`. -/
theorem reserve_cancel_reserve_cex :
    findSlot cexStore 1 = some cexSlot ∧
    (reserve_appointment cexStore 7 1 "Bob" "x").1 = .error .Conflict :=
  ⟨rfl, rfl⟩

/-- C6 (amended): for a well-formed store and a slot id present with
`reserved = false`, and non-empty `reservedBy` values (the input
validation rejects empty ones), Reserve; Cancel; Reserve on that id
succeeds at each step: Cancel restores the slot to `Available` and it is
reservable again. -/
theorem reserve_cancel_reserve_spec (st : Store) (hWF : StoreWF st) (id : Nat)
    (s : Schedule) (hfind : findSlot st id = some s) (havail : s.reserved = false)
    (n1 n2 n3 : Nat) (r1 note1 r2 note2 : String) (h1 : r1 ≠ "") (h2 : r2 ≠ "") :
    ∃ a1 st1 a2 st2 a3 st3,
      reserve_appointment st n1 id r1 note1 = (.ok a1, st1) ∧
      cancel_appointment st1 n2 id = (.ok a2, st2) ∧
      reserve_appointment st2 n3 id r2 note2 = (.ok a3, st3) := by
  obtain ⟨hmem, hsid⟩ := findSlot_mem st id s hfind
  have hid : id ≠ 0 := by
    have hone := (hWF.2.1 s hmem).1
    omega
  have hstep1 := reserve_ok st n1 id r1 note1 s hid h1 hfind havail
  have hf1 : findSlot { st with slots := st.slots.map (applyReserve n1 id r1 note1) } id =
      some { s with reserved := true, reserved_by := some r1,
                    reserved_note := some note1, updated_at := n1 } := by
    rw [findSlot_map_store st _ (applyReserve_id n1 id r1 note1) id, hfind]
    simp [applyReserve, hsid]
  have hstep2 := cancel_ok { st with slots := st.slots.map (applyReserve n1 id r1 note1) }
    n2 id _ hf1 rfl
  have hf2 : findSlot { { st with slots := st.slots.map (applyReserve n1 id r1 note1) } with
        slots := ({ st with slots := st.slots.map (applyReserve n1 id r1 note1) } : Store).slots.map
          (applyCancel n2 id) } id =
      some { s with reserved := false, reserved_by := none,
                    reserved_note := none, updated_at := n2 } := by
    rw [findSlot_map_store _ _ (applyCancel_id n2 id) id, hf1]
    simp [applyCancel, hsid]
  have hstep3 := reserve_ok _ n3 id r2 note2 _ hid h2 hf2 rfl
  exact ⟨_, _, _, _, _, _, hstep1, hstep2, hstep3⟩

/-- Witness for C6 (amended) on the one-available-slot store. -/
theorem reserve_cancel_reserve_spec_witness :
    ∃ a1 st1 a2 st2 a3 st3,
      reserve_appointment wStore 1 1 "Alice" "first" = (.ok a1, st1) ∧
      cancel_appointment st1 2 1 = (.ok a2, st2) ∧
      reserve_appointment st2 3 1 "Bob" "second" = (.ok a3, st3) :=
  reserve_cancel_reserve_spec wStore (by decide) 1 wSlot rfl rfl 1 2 3
    "Alice" "first" "Bob" "second" (by decide) (by decide)

/-! ### C7 -/

/-- The optional date filter of the query string, parsed: `none` when the
parameter is absent, `some d` when present and parseable. -/
def parsedDateQ : Option String → Option (Option Ymd)
  | none => some none
  | some s => (parseDateString s).map some

/-- C7: whenever the optional date filter is absent or parseable,
`get_schedules_api` returns exactly the slots satisfying the conjunction
of the provided filters, sorted by `(date, hour)` ascending, with `count`
equal to the length of the returned list. -/
theorem get_schedules_spec (st : Store) (dateQ sharedQ availQ : Option String)
    (dOpt : Option Ymd) (hd : parsedDateQ dateQ = some dOpt) :
    ∃ out, get_schedules_api st dateQ sharedQ availQ = .ok (out, out.length) ∧
      out.Perm (st.slots.filter (listFilter dOpt (parseFlag sharedQ) (parseFlag availQ))) ∧
      out.Sorted slotLe := by
  cases dateQ with
  | none =>
    simp only [parsedDateQ, Option.some_inj] at hd
    subst hd
    exact ⟨_, rfl, List.perm_insertionSort slotLe _, List.sorted_insertionSort slotLe _⟩
  | some ds =>
    simp only [parsedDateQ] at hd
    rcases Option.map_eq_some'.1 hd with ⟨dv, hdv, rfl⟩
    simp only [get_schedules_api, hdv]
    exact ⟨_, rfl, List.perm_insertionSort slotLe _, List.sorted_insertionSort slotLe _⟩

/-- Witness for C7: list the one-reserved-slot store with no filters. -/
theorem get_schedules_spec_witness :
    ∃ out, get_schedules_api cexStore none none none = .ok (out, out.length) ∧
      out.Perm (cexStore.slots.filter (listFilter none (parseFlag none) (parseFlag none))) ∧
      out.Sorted slotLe :=
  get_schedules_spec cexStore none none none none rfl

/-! ### C9 -/

/-- C9: for each mirrored operation, the outcome and the authoritative
store are the same whether the Firestore mirror write succeeds or fails —
the mirror failure is only logged, never surfaced. -/
theorem backup_failure_irrelevant :
    (∀ fs b now ds hs sh,
        (create_schedule_full fs b now ds hs sh).1 =
          (create_schedule_api fs.store now ds hs sh).1 ∧
        (create_schedule_full fs b now ds hs sh).2.store =
          (create_schedule_api fs.store now ds hs sh).2) ∧
    (∀ fs b now id shOpt,
        (update_schedule_full fs b now id shOpt).1 =
          (update_schedule_api fs.store now id shOpt).1 ∧
        (update_schedule_full fs b now id shOpt).2.store =
          (update_schedule_api fs.store now id shOpt).2) ∧
    (∀ fs b now id rb note,
        (reserve_appointment_full fs b now id rb note).1 =
          (reserve_appointment fs.store now id rb note).1 ∧
        (reserve_appointment_full fs b now id rb note).2.store =
          (reserve_appointment fs.store now id rb note).2) ∧
    (∀ fs b now id,
        (cancel_appointment_full fs b now id).1 =
          (cancel_appointment fs.store now id).1 ∧
        (cancel_appointment_full fs b now id).2.store =
          (cancel_appointment fs.store now id).2) := by
  refine ⟨?_, ?_, ?_, ?_⟩
  · intro fs b now ds hs sh
    rcases h : create_schedule_api fs.store now ds hs sh with ⟨res, st2⟩
    cases res <;> simp [create_schedule_full, h]
  · intro fs b now id shOpt
    rcases h : update_schedule_api fs.store now id shOpt with ⟨res, st2⟩
    cases res <;> simp [update_schedule_full, h]
  · intro fs b now id rb note
    rcases h : reserve_appointment fs.store now id rb note with ⟨res, st2⟩
    cases res <;> simp [reserve_appointment_full, h]
  · intro fs b now id
    rcases h : cancel_appointment fs.store now id with ⟨res, st2⟩
    cases res <;> simp [cancel_appointment_full, h]

/-! ### C10 -/

/-- C10: the `shared` and `available` query flags are applied only when
the raw value lower-cases to exactly `"true"`; any other value (such as
`"false"`, `"1"` or `"yes"`) makes the filter behave as if absent, so
`available=false` returns all slots, including reserved ones. -/
theorem filter_flag_spec :
    (∀ v, parseFlag (some v) = (v.data.map lowerChar == "true".data)) ∧
    parseFlag none = false ∧
    (∀ st dq sq v, v.data.map lowerChar ≠ "true".data →
        get_schedules_api st dq sq (some v) = get_schedules_api st dq sq none) ∧
    (∀ st dq aq v, v.data.map lowerChar ≠ "true".data →
        get_schedules_api st dq (some v) aq = get_schedules_api st dq none aq) := by
  refine ⟨fun v => rfl, rfl, ?_, ?_⟩
  · intro st dq sq v hv
    have hp : parseFlag (some v) = false := by
      simp only [parseFlag]
      exact beq_eq_false_iff_ne.2 hv
    simp only [get_schedules_api]
    rw [hp, show parseFlag none = false from rfl]
  · intro st dq aq v hv
    have hp : parseFlag (some v) = false := by
      simp only [parseFlag]
      exact beq_eq_false_iff_ne.2 hv
    simp only [get_schedules_api]
    rw [hp, show parseFlag none = false from rfl]

/-- Witness for C10: `available=false` on the store with one reserved
slot behaves like no filter at all (and in particular still returns the
reserved slot). -/
theorem filter_flag_spec_witness :
    get_schedules_api cexStore none none (some "false") =
      get_schedules_api cexStore none none none ∧
    get_schedules_api cexStore none (some "1") none =
      get_schedules_api cexStore none none none :=
  ⟨filter_flag_spec.2.2.1 cexStore none none "false" (by decide),
   filter_flag_spec.2.2.2 cexStore none none "1" (by decide)⟩

end MedApp
